import Mathlib

/-!
Shallow embedding of the circuit-simulator core of `esc_sim_test`
(`src/sim.rs` and `src/sim/components.rs`).

Modelling conventions:
- the Rust scalar type `f = f64` is embedded as `ℚ` (all state is plain
  arithmetic over doubles; the constants involved in the claims are exact
  decimals, and every concrete computation in the theorems below is exact
  in `f64` as well, being dyadic scaling / same-scale additions);
- Rust slices / fixed arrays of nets are embedded as `List NetState` with
  in-place mutation rendered as functional update (`listModify`); indexing
  a `[f; 2]` array is embedded as `List.get?`, where `none` models the
  out-of-bounds panic;
- the chaotic damping sequence `step_i = sin(1349 i) * 0.5 + 0.5` of
  `solve_state` is abstracted as an injected sequence `stepSeq : ℕ → F`
  (the spec itself mandates "expose the sequence as an injected iterator");
  its round-0 value is exactly `1/2` (`sin 0 = 0`);
- the `f64` transcendentals `ln`, `sqrt`, `exp` used by the MOSFET model
  are abstracted as function parameters `rlog rsqrt rexp : F → F`; every
  theorem about the MOSFET is either independent of their values or
  instantiates them at arguments where the IEEE functions are exact.
-/

/-- Embedded scalar type (`type f = f64` in the source). -/
abbrev F : Type := ℚ

/-- Read a list at an index with a fallback default (used for net reads whose
indices are in range for every circuit built through the API). -/
def listGetD {α : Type} (l : List α) (i : ℕ) (d : α) : α :=
  match l, i with
  | [], _ => d
  | x :: _, 0 => x
  | _ :: xs, n + 1 => listGetD xs n d

/-- Functional update of a list at an index (in-place `&mut` write in the
source); out-of-range updates are the identity. -/
def listModify {α : Type} (l : List α) (i : ℕ) (g : α → α) : List α :=
  match l, i with
  | [], _ => []
  | x :: xs, 0 => g x :: xs
  | x :: xs, n + 1 => x :: listModify xs n g

/-- The `Lerp` trait of `sim.rs`: `self.lerp(a, b) = a * (1 - self) + b * self`. -/
def lerp (t a b : F) : F := a * (1 - t) + b * t

/-- Convergence epsilon of `fn converged` in `sim.rs` (`EPSILON: f = 1e-12`). -/
def EPSILON : F := 1 / 1000000000000

/-- `fn converged(prev, next) -> HasConverged` of `sim.rs`. -/
def hasConverged (prev next : F) : Bool := decide (|prev - next| ≤ EPSILON)

/-- `fn converged_to_zero(v) -> HasConverged` of `sim.rs` (its `EPSILON` is `0.0`). -/
def converged_to_zero (v : F) : Bool := decide (|v| ≤ 0)

/-- `struct NetState` of `sim.rs`.  The two-entry current-imbalance array
`current: [f; 2]` is unrolled into the fields `current0`, `current1`. -/
structure NetState where
  components : List (ℕ × ℕ)
  current0 : F
  current1 : F
  current_sources : ℕ
  voltage : F
  voltage_accumulator : F
  voltage_accumulator_sources : ℕ
deriving Repr, DecidableEq

/-- `NetState::new_empty` of `sim.rs`. -/
def NetState.new_empty : NetState :=
  { components := []
    current0 := 0
    current1 := 0
    current_sources := 0
    voltage := 0
    voltage_accumulator := 0
    voltage_accumulator_sources := 0 }

instance : Inhabited NetState := ⟨NetState.new_empty⟩

/-- `NetState::apply_accumulated_voltage` of `sim.rs`. -/
def NetState.apply_accumulated_voltage (net : NetState) : NetState × Bool :=
  if net.voltage_accumulator_sources = 0 then (net, true)
  else
    let voltage_next := net.voltage_accumulator / (net.voltage_accumulator_sources : F)
    let conv := hasConverged net.voltage voltage_next
    ({ net with
        voltage := voltage_next
        voltage_accumulator := 0
        voltage_accumulator_sources := 0 }, conv)

/-- `NetState::normalize_current` of `sim.rs`. -/
def NetState.normalize_current (net : NetState) : NetState :=
  if net.current_sources = 0 then net
  else
    { net with
        current0 := net.current0 / (net.current_sources : F)
        current1 := net.current1 / (net.current_sources : F)
        current_sources := 0 }

/-- `NetState.current_converged` of `sim.rs`: note the source's
`true || converged[0] && converged[1]`. -/
def NetState.current_converged (net : NetState) : Bool :=
  let conv0 := converged_to_zero net.current0
  let conv1 := converged_to_zero net.current1
  true || (conv0 && conv1)

/-- Cast one half of a damped voltage vote on the net at index `i`
(the body of the per-net vote in `impart_voltage_to_nets`):
`net.voltage_accumulator += net.voltage + d; net.voltage_accumulator_sources += 1`. -/
def voteFn (d : F) (n : NetState) : NetState :=
  { n with
      voltage_accumulator := n.voltage_accumulator + (n.voltage + d)
      voltage_accumulator_sources := n.voltage_accumulator_sources + 1 }

def voteOn (nets : List NetState) (i : ℕ) (d : F) : List NetState :=
  listModify nets i (voteFn d)

/-- Add `d` to current-imbalance entry `k ∈ {0,1}` of the net at index `i` and
bump its `current_sources` counter (one arm of the `for i in 0..2` loop of
`impart_currents_to_nets`). -/
def addCurrent (nets : List NetState) (i : ℕ) (k : ℕ) (d : F) : List NetState :=
  listModify nets i fun n =>
    if k = 0 then { n with current0 := n.current0 + d, current_sources := n.current_sources + 1 }
    else { n with current1 := n.current1 + d, current_sources := n.current_sources + 1 }

-- ---------------------- LINEAR COMPONENTS (`sim/components.rs`) ----------------------

/-- `enum LinearComponentValue` of `sim/components.rs`. -/
inductive LinearComponentValue where
  | Capacitive (c : F)
  | Resistive (r : F)
  | Inductive (l : F)
  | Source (v : F)
  | Switch (closed : Bool)
deriving Repr, DecidableEq

/-- `struct LinearComponentState` of `sim/components.rs`; the internal vector
`q: [f; 3] = [Q, I, dI/dt]` is unrolled into `q0`, `q1`, `q2`. -/
structure LinearComponentState where
  connected_nets_i0 : ℕ
  connected_nets_i1 : ℕ
  value : LinearComponentValue
  q0 : F
  q1 : F
  q2 : F
  offset_emf : F
deriving Repr, DecidableEq

/-- `FACTOR_R` of `purturb_from_nets` in `sim/components.rs`. -/
def FACTOR_R : F := 1

/-- `FACTOR_L` of `purturb_from_nets` in `sim/components.rs`. -/
def FACTOR_L : F := 0

/-- The `match self.value` computing `v_target` inside
`LinearComponentState::impart_voltage_to_nets`; `none` is the `return` arm of
an open switch (the device declines to vote). -/
def LinearComponentState.v_target_opt (self : LinearComponentState) : Option F :=
  match self.value with
  | .Capacitive c => some (self.offset_emf + (-self.q0 / c))
  | .Resistive r => some (self.offset_emf + (-self.q1 * r))
  | .Inductive l => some (self.offset_emf + (-self.q2 * l))
  | .Source v => some (self.offset_emf + v)
  | .Switch true => some (self.offset_emf + 0)
  | .Switch false => none

/-- `LinearComponentState::impart_voltage_to_nets` of `sim/components.rs`. -/
def LinearComponentState.impart_voltage_to_nets (self : LinearComponentState)
    (nets : List NetState) (step : F) : List NetState :=
  match self.v_target_opt with
  | none => nets
  | some v_target =>
    let v_prev := (listGetD nets self.connected_nets_i1 default).voltage -
      (listGetD nets self.connected_nets_i0 default).voltage
    let v_diff := (v_target - v_prev) * (1 / 2) * step
    let nets := voteOn nets self.connected_nets_i0 (-v_diff)
    voteOn nets self.connected_nets_i1 v_diff

/-- `LinearComponentState::impart_currents_to_nets` of `sim/components.rs`
(the `for i in 0..2` loop unrolled, preserving the write order). -/
def LinearComponentState.impart_currents_to_nets (self : LinearComponentState)
    (nets : List NetState) : List NetState :=
  match self.value with
  | .Switch false => nets
  | _ =>
    let nets := addCurrent nets self.connected_nets_i0 0 (-self.q1)
    let nets := addCurrent nets self.connected_nets_i1 0 self.q1
    let nets := addCurrent nets self.connected_nets_i0 1 (-self.q2)
    addCurrent nets self.connected_nets_i1 1 self.q2

/-- `LinearComponentState::purturb_from_nets` of `sim/components.rs` (the nets
are only read; the updated component state and the convergence verdict are
returned). -/
def LinearComponentState.purturb_from_nets (self : LinearComponentState)
    (nets : List NetState) : LinearComponentState × Bool :=
  let v_target := (listGetD nets self.connected_nets_i1 default).voltage -
    (listGetD nets self.connected_nets_i0 default).voltage
  let i_target0 := self.q1 + (1 / 2) *
    ((listGetD nets self.connected_nets_i0 default).current0 -
      (listGetD nets self.connected_nets_i1 default).current0)
  let i_target1 := self.q2 + (1 / 2) *
    ((listGetD nets self.connected_nets_i0 default).current1 -
      (listGetD nets self.connected_nets_i1 default).current1)
  let qn : F × F :=
    match self.value with
    | .Capacitive _ | .Source _ => (i_target0, i_target1)
    | .Resistive r => (lerp FACTOR_R (-v_target / r) i_target0, i_target1)
    | .Inductive l => (self.q1, lerp FACTOR_L (-v_target / l) i_target1)
    | .Switch true => (i_target0, i_target1)
    | .Switch false => (0, 0)
  let conv := hasConverged self.q1 qn.1 && hasConverged self.q2 qn.2
  ({ self with q1 := qn.1, q2 := qn.2 }, conv)

/-- `LinearComponentState::tick` of `sim/components.rs`:
`q[1] += q[2] * dt; q[0] += q[1] * dt` (the second line reads the updated `q[1]`). -/
def LinearComponentState.tick (self : LinearComponentState) (dt : F) : LinearComponentState :=
  let q1 := self.q1 + self.q2 * dt
  { self with q1 := q1, q0 := self.q0 + q1 * dt }

-- ---------------------- MOSFETS (`sim/components.rs`) ----------------------

/-- `enum MOSFETDopingType` of `sim/components.rs`. -/
inductive MOSFETDopingType where
  | PChannel
  | NChannel
deriving Repr, DecidableEq

/-- `struct MOSFETComponentValue` of `sim/components.rs` (field names kept,
including the source's spelling of the ideality factor). -/
structure MOSFETComponentValue where
  ty : MOSFETDopingType
  beta : F
  threshold_voltage : F
  body_diode_saturation_current : F
  body_diode_ideality_facotor : F
deriving Repr, DecidableEq

/-- `struct MOSFETComponentState` of `sim/components.rs`.  The dynamic current
vector `i: [f; 2]` is embedded as a `List F` (created with length 2) so that
the source's array indexing — including an out-of-bounds index — can be
rendered faithfully through `List.get?`, `none` modelling the panic.
`connected_nets_i` is `[source, gate, drain]`. -/
structure MOSFETComponentState where
  connected_nets_i0 : ℕ
  connected_nets_i1 : ℕ
  connected_nets_i2 : ℕ
  value : MOSFETComponentValue
  i : List F
  v_gs_positive : F
  temperature : F
deriving Repr, DecidableEq

/-- `MOSFETComponentState::new` of `sim/components.rs` (temperature defaults
to 295 K, dynamic current vector to `[0.0; 2]`). -/
def MOSFETComponentState.new (value : MOSFETComponentValue)
    (s g d : ℕ) : MOSFETComponentState :=
  { connected_nets_i0 := s
    connected_nets_i1 := g
    connected_nets_i2 := d
    value := value
    i := [0, 0]
    v_gs_positive := 0
    temperature := 295 }

/-- `ELEMENTARY_CHARGE_OVER_BOLTZMANN_CONSTANT: f = 1.1604518121550082e+4`
of `sim/components.rs`, embedded as the exact decimal value of the literal. -/
def ELEMENTARY_CHARGE_OVER_BOLTZMANN_CONSTANT : F := 11604518121550082 / 1000000000000

/-- Doping-type sign convention for currents
(`match doping_type { PChannel => i_ds, NChannel => -i_ds }`), used when
reading the stored `i[0]` in `impart_voltage_to_nets` and when exporting the
computed `i_ds` in `purturb_from_nets`. -/
def dopingFlipCurrent (ty : MOSFETDopingType) (x : F) : F :=
  match ty with
  | .PChannel => x
  | .NChannel => -x

/-- Doping-type sign convention for voltages
(`match doping_type { PChannel => -v, NChannel => v }`), used when exporting
`v_ds` in `impart_voltage_to_nets` and when reading net voltages in
`purturb_from_nets`. -/
def dopingFlipVoltage (ty : MOSFETDopingType) (x : F) : F :=
  match ty with
  | .PChannel => -x
  | .NChannel => x

/-- `MOSFETComponentState::impart_voltage_to_nets` of `sim/components.rs`,
parameterized by the `f64` `ln` and `sqrt` (`rlog`, `rsqrt`).  The outer
`Option` models the array-index panic (`self.i[0]`); a `some nets` with no
vote cast is the device declining (cutoff / saturation `return`). -/
def MOSFETComponentState.impart_voltage_to_nets (rlog rsqrt : F → F)
    (self : MOSFETComponentState) (nets : List NetState) (step : F) :
    Option (List NetState) :=
  match self.i.get? 0 with
  | none => none
  | some i0 =>
    let i_ds := dopingFlipCurrent self.value.ty i0
    let v_gs := self.v_gs_positive
    let v_ds_opt : Option F :=
      if i_ds < 0 then
        -- body diode forward flow
        some (-(rlog ((-i_ds) / self.value.body_diode_saturation_current + 1)) *
          (self.value.body_diode_ideality_facotor * self.temperature /
            ELEMENTARY_CHARGE_OVER_BOLTZMANN_CONSTANT))
      else
        let v_ctrl := v_gs - self.value.threshold_voltage
        if v_ctrl > 0 then
          if v_ctrl * v_ctrl * (99999 / 100000) > 2 * i_ds / self.value.beta then
            -- linear/triode region
            some (v_ctrl - rsqrt (v_ctrl * v_ctrl - 2 * i_ds / self.value.beta))
          else
            -- saturation region: no influence on voltage
            none
        else
          -- closed (cutoff) region: no influence on voltage
          none
    match v_ds_opt with
    | none => some nets
    | some v_ds_pos =>
      let v_ds := dopingFlipVoltage self.value.ty v_ds_pos
      let v_ds_prev := (listGetD nets self.connected_nets_i2 default).voltage -
        (listGetD nets self.connected_nets_i0 default).voltage
      let v_diff := (v_ds - v_ds_prev) * (1 / 2) * step
      let nets := voteOn nets self.connected_nets_i0 (-v_diff)
      some (voteOn nets self.connected_nets_i2 v_diff)

/-- `MOSFETComponentState::impart_currents_to_nets` of `sim/components.rs`
(the `for i in 0..2` loop unrolled; `none` models an array-index panic). -/
def MOSFETComponentState.impart_currents_to_nets (self : MOSFETComponentState)
    (nets : List NetState) : Option (List NetState) :=
  match self.i.get? 0, self.i.get? 1 with
  | some i0, some i1 =>
    let nets := addCurrent nets self.connected_nets_i0 0 (-i0)
    let nets := addCurrent nets self.connected_nets_i2 0 i0
    let nets := addCurrent nets self.connected_nets_i0 1 (-i1)
    some (addCurrent nets self.connected_nets_i2 1 i1)
  | _, _ => none

/-- `MOSFETComponentState::purturb_from_nets` of `sim/components.rs`,
parameterized by the `f64` `exp` (`rexp`); nets are only read.  `none`
models an array-index panic. -/
def MOSFETComponentState.purturb_from_nets (rexp : F → F)
    (self : MOSFETComponentState) (nets : List NetState) :
    Option (MOSFETComponentState × Bool) :=
  match self.i.get? 0, self.i.get? 1 with
  | some s0, some s1 =>
    let v_gs_raw := (listGetD nets self.connected_nets_i1 default).voltage -
      (listGetD nets self.connected_nets_i0 default).voltage
    let v_ds_raw := (listGetD nets self.connected_nets_i2 default).voltage -
      (listGetD nets self.connected_nets_i0 default).voltage
    let v_gs := dopingFlipVoltage self.value.ty v_gs_raw
    let v_ds := dopingFlipVoltage self.value.ty v_ds_raw
    if v_ds > 0 then
      let v_ctrl := v_gs - self.value.threshold_voltage
      if v_ctrl > 0 then
        let i_ds_pos := self.value.beta *
          (if v_ds < v_ctrl then v_ctrl * v_ds - v_ds * v_ds * (1 / 2)
           else v_ctrl * v_ctrl * (1 / 2))
        let i_ds := dopingFlipCurrent self.value.ty i_ds_pos
        let i_target0 := s0 + (1 / 2) *
          ((listGetD nets self.connected_nets_i0 default).current0 -
            (listGetD nets self.connected_nets_i2 default).current0)
        let i_target1 := s1 + (1 / 2) *
          ((listGetD nets self.connected_nets_i0 default).current1 -
            (listGetD nets self.connected_nets_i2 default).current1)
        let i_next0 := lerp (1 / 2) i_ds i_target0
        let i_next1 := i_target1
        let conv := hasConverged s0 i_next0 && hasConverged s1 i_next1 &&
          hasConverged self.v_gs_positive v_gs
        some ({ self with i := [i_next0, i_next1], v_gs_positive := v_gs }, conv)
      else
        -- closed (cutoff) region: early return, v_gs_positive is NOT cached
        let conv := hasConverged s0 0 && hasConverged s1 0
        some ({ self with i := [0, 0] }, conv)
    else
      let i_ds_pos := -self.value.body_diode_saturation_current *
        (rexp (min (-v_ds * ELEMENTARY_CHARGE_OVER_BOLTZMANN_CONSTANT /
          (self.value.body_diode_ideality_facotor * self.temperature)) 64) - 1)
      let i_ds := dopingFlipCurrent self.value.ty i_ds_pos
      let i_target0 := s0 + (1 / 2) *
        ((listGetD nets self.connected_nets_i0 default).current0 -
          (listGetD nets self.connected_nets_i2 default).current0)
      let i_target1 := s1 + (1 / 2) *
        ((listGetD nets self.connected_nets_i0 default).current1 -
          (listGetD nets self.connected_nets_i2 default).current1)
      let i_next0 := lerp (1 / 2) i_ds i_target0
      let i_next1 := i_target1
      let conv := hasConverged s0 i_next0 && hasConverged s1 i_next1 &&
        hasConverged self.v_gs_positive v_gs
      some ({ self with i := [i_next0, i_next1], v_gs_positive := v_gs }, conv)
  | _, _ => none

/-- `MOSFETComponentState::tick` of `sim/components.rs`:
`self.i[1] += self.i[2] * dt`.  The reads of `i[1]` and of `i[2]` are embedded
through `List.get?`; since `i: [f; 2]` has exactly two entries, the read of
`i[2]` is out of bounds and the result is `none` (the panic). -/
def MOSFETComponentState.tick (self : MOSFETComponentState) (dt : F) :
    Option MOSFETComponentState :=
  match self.i.get? 1, self.i.get? 2 with
  | some a, some b => some { self with i := listModify self.i 1 (fun _ => a + b * dt) }
  | _, _ => none

-- ---------------------- CIRCUIT SOLVER (`sim.rs`) ----------------------

/-- `enum ComponentStateEnum` of `sim.rs` (its only variant is `Linear`). -/
inductive ComponentStateEnum where
  | Linear (v : LinearComponentState)
deriving Repr, DecidableEq

/-- `struct CircuitState` of `sim.rs`. -/
structure CircuitState where
  components : List ComponentStateEnum
  nets : List NetState
deriving Repr, DecidableEq

/-- `CircuitState::correct_voltages` of `sim.rs`: every component imparts its
damped voltage vote, then every net applies its accumulated vote; the pass is
converged iff every net reported converged. -/
def CircuitState.correct_voltages (self : CircuitState) (step : F) :
    CircuitState × Bool :=
  let nets1 := self.components.foldl
    (fun ns c => match c with
      | ComponentStateEnum.Linear v => v.impart_voltage_to_nets ns step)
    self.nets
  let pairs := nets1.map NetState.apply_accumulated_voltage
  ({ self with nets := pairs.map Prod.fst }, pairs.all Prod.snd)

/-- The net preparation of `CircuitState::correct_charge_states`: zero every
net's current imbalance, let every component impart its branch currents, then
normalize every net's imbalance. -/
def CircuitState.charge_prep (self : CircuitState) : List NetState :=
  let nets0 := self.nets.map fun n => { n with current0 := 0, current1 := 0 }
  let nets1 := self.components.foldl
    (fun ns c => match c with
      | ComponentStateEnum.Linear v => v.impart_currents_to_nets ns)
    nets0
  nets1.map NetState.normalize_current

/-- The perturbation sweep of `CircuitState::correct_charge_states`: every
component perturbs its internal state from the prepared nets, in component
order; the flag is the conjunction of the per-component verdicts. -/
def chargePerturb (comps : List ComponentStateEnum) (nets : List NetState) :
    List ComponentStateEnum × Bool :=
  match comps with
  | [] => ([], true)
  | ComponentStateEnum.Linear v :: rest =>
    let r := v.purturb_from_nets nets
    let rs := chargePerturb rest nets
    (ComponentStateEnum.Linear r.1 :: rs.1, r.2 && rs.2)

/-- `CircuitState::correct_charge_states` of `sim.rs`.  Note the trailing
`converged && self.nets.iter().all(|net| net.current_converged())`. -/
def CircuitState.correct_charge_states (self : CircuitState) :
    CircuitState × Bool :=
  let nets2 := self.charge_prep
  let r := chargePerturb self.components nets2
  (⟨r.1, nets2⟩, r.2 && nets2.all NetState.current_converged)

/-- The voltage-correction micro-loop of `CircuitState::solve_state`
(`for _ in 0..10 { if !self.correct_voltages(step) { converged = false } else { break } }`).
Returns the state, the source's `converged` flag (initially `true`, cleared by
every failing pass and never restored), and — as instrumentation for the
spec's reading — whether the final executed pass converged. -/
def voltageMicroLoop (step : F) : ℕ → CircuitState → Bool → CircuitState × Bool × Bool
  | 0, c, flag => (c, flag, false)
  | fuel + 1, c, flag =>
    let r := c.correct_voltages step
    if r.2 then (r.1, flag, true)
    else voltageMicroLoop step fuel r.1 false

/-- One outer round of `CircuitState::solve_state`: the voltage micro-loop
(up to 10 passes) followed by the charge-state correction.  Returns
`(state, round_converged, final_voltage_pass_converged, charge_converged)`
where `round_converged` is the source's verdict
(`micro-loop flag && charge flag`). -/
def CircuitState.outer_round (self : CircuitState) (step : F) :
    CircuitState × Bool × Bool × Bool :=
  let v := voltageMicroLoop step 10 self true
  let ch := v.1.correct_charge_states
  (ch.1, v.2.1 && ch.2, v.2.2, ch.2)

/-- The outer loop of `CircuitState::solve_state`, with explicit fuel and
round index: runs outer rounds until one is converged (returning `true`) or
the fuel is exhausted (returning `false`). -/
def solveStateGo (stepSeq : ℕ → F) : ℕ → ℕ → CircuitState → CircuitState × Bool
  | 0, _, c => (c, false)
  | fuel + 1, idx, c =>
    let r := c.outer_round (stepSeq idx)
    if r.2.1 then (r.1, true) else solveStateGo stepSeq fuel (idx + 1) r.1

/-- `CircuitState::solve_state` of `sim.rs`: up to 1000 outer rounds, the
round-`i` damping being `stepSeq i` (in the source, `sin(1349 i) * 0.5 + 0.5`,
abstracted here as an injected sequence; `stepSeq 0 = 1/2` in the source). -/
def CircuitState.solve_state (stepSeq : ℕ → F) (self : CircuitState) :
    CircuitState × Bool :=
  solveStateGo stepSeq 1000 0 self

/-- Instrumented variant of the outer loop that reports the index of the round
at which `solve_state` returns `true` (`none` when the budget is exhausted). -/
def solveRoundsGo (stepSeq : ℕ → F) : ℕ → ℕ → CircuitState → Option ℕ
  | 0, _, _ => none
  | fuel + 1, idx, c =>
    let r := c.outer_round (stepSeq idx)
    if r.2.1 then some idx else solveRoundsGo stepSeq fuel (idx + 1) r.1

/-- The round index at which `solve_state` returns `true`. -/
def CircuitState.solve_state_rounds (stepSeq : ℕ → F) (self : CircuitState) :
    Option ℕ :=
  solveRoundsGo stepSeq 1000 0 self

/-- The claim's reading of the outer loop ("the outer round is converged iff
the final pass of its voltage micro-loop converged AND the charge-state
correction converged"), written from the spec's words for comparison with the
source's `solve_state`: identical except that the round verdict is
`final_voltage_pass_converged && charge_converged`. -/
def claimRoundsGo (stepSeq : ℕ → F) : ℕ → ℕ → CircuitState → Option ℕ
  | 0, _, _ => none
  | fuel + 1, idx, c =>
    let r := c.outer_round (stepSeq idx)
    if r.2.2.1 && r.2.2.2 then some idx else claimRoundsGo stepSeq fuel (idx + 1) r.1

/-- The round index at which the spec-claimed convergence rule would return
`true` (spec reading of `solve_state`). -/
def CircuitState.claim_solve_state_rounds (stepSeq : ℕ → F) (self : CircuitState) :
    Option ℕ :=
  claimRoundsGo stepSeq 1000 0 self

/-- State reached after advancing `k` outer rounds, the first of which uses
the damping value at index `idx`. -/
def roundState (stepSeq : ℕ → F) : ℕ → ℕ → CircuitState → CircuitState
  | _, 0, c => c
  | idx, k + 1, c => roundState stepSeq (idx + 1) k (c.outer_round (stepSeq idx)).1

/-- The source's convergence verdict of the `j`-th outer round after position
`idx`, starting from `c`. -/
def roundConv (stepSeq : ℕ → F) (idx : ℕ) (c : CircuitState) (j : ℕ) : Bool :=
  ((roundState stepSeq idx j c).outer_round (stepSeq (idx + j))).2.1

/-- Kirchhoff residual of a circuit state at net `n`: entry 0 of the
imbalance that `impart_currents_to_nets` accumulates over all components on
freshly zeroed nets (the pre-normalization signed sum of branch-current
contributions). -/
def CircuitState.net_residual (self : CircuitState) (n : ℕ) : F :=
  let nets0 := self.nets.map fun net =>
    { net with current0 := 0, current1 := 0, current_sources := 0 }
  let nets1 := self.components.foldl
    (fun ns c => match c with
      | ComponentStateEnum.Linear v => v.impart_currents_to_nets ns)
    nets0
  (listGetD nets1 n default).current0

-- ---------------------- CONCRETE CLAIM INPUTS ----------------------

/-- Counterexample input for claim C5: a 1-ohm resistor with zero internal
state whose terminal nets hold voltages 0 and 1 and zero imbalances. -/
def c5_resistor : LinearComponentState :=
  LinearComponentState.mk 0 1 (LinearComponentValue.Resistive 1) 0 0 0 0

/-- Counterexample nets for claim C5. -/
def c5_nets : List NetState :=
  [NetState.new_empty, { NetState.new_empty with voltage := 1 }]

/-- Constant damping sequence with value `1/2` — the source's dithered
sequence takes exactly this value at round 0 (`sin 0 = 0`), and every use
below either returns within round 0 or is insensitive to the later values. -/
def halfSeq : ℕ → F := fun _ => 1 / 2

/-- Counterexample circuit for claim C2: a single 1-henry inductor carrying a
constant internal current of 5 amperes between two fresh nets. -/
def c2_circuit : CircuitState :=
  CircuitState.mk
    [ComponentStateEnum.Linear
      (LinearComponentState.mk 0 1 (LinearComponentValue.Inductive 1) 0 5 0 0)]
    [NetState.new_empty, NetState.new_empty]

/-- The state after one outer round on `c2_circuit`: the inductor's current is
untouched (its perturb only writes `dI/dt`), the nets carry the normalized
imbalance `∓5/2`. -/
def c2_final : CircuitState :=
  CircuitState.mk
    [ComponentStateEnum.Linear
      (LinearComponentState.mk 0 1 (LinearComponentValue.Inductive 1) 0 5 0 0)]
    [{ NetState.new_empty with current0 := -5 / 2 },
      { NetState.new_empty with current0 := 5 / 2 }]

/-- The circuit state on which round `k`'s charge correction operates: the
output of round `k`'s voltage micro-loop, after rounds `0 .. k−1` have run. -/
def CircuitState.charge_input (stepSeq : ℕ → F) (c : CircuitState) (k : ℕ) :
    CircuitState :=
  (voltageMicroLoop (stepSeq k) 10 (roundState stepSeq 0 k c) true).1

/-- Counterexample circuit for claim C3: an ideal voltage source of
`8·ε_v = 8e-12` volts between two fresh nets.  In round 0 (damping exactly
`1/2`), the first voltage pass moves each net by `2ε_v > ε_v` (pass fails),
the second moves each by exactly `ε_v` (pass converges, micro-loop breaks) —
but the `converged` flag cleared by the first pass is never restored. -/
def c3_circuit : CircuitState :=
  CircuitState.mk
    [ComponentStateEnum.Linear
      (LinearComponentState.mk 0 1 (LinearComponentValue.Source (8 * EPSILON)) 0 0 0 0)]
    [NetState.new_empty, NetState.new_empty]

/-- The state after round 0 on `c3_circuit`. -/
def c3_mid : CircuitState :=
  CircuitState.mk
    [ComponentStateEnum.Linear
      (LinearComponentState.mk 0 1 (LinearComponentValue.Source (8 * EPSILON)) 0 0 0 0)]
    [{ NetState.new_empty with voltage := -(3 * EPSILON) },
      { NetState.new_empty with voltage := 3 * EPSILON }]

/-- Counterexample MOSFET for claim C9 as stated: its gate terminal is bound
to the same net as its source terminal (`connected_nets_i = [0, 0, 1]`,
permitted by construction), and it is in the triode region.  The abstracted
square root is evaluated only at `1`, where the IEEE `sqrt` is exact. -/
def c9_alias : MOSFETComponentState :=
  MOSFETComponentState.mk 0 0 1
    (MOSFETComponentValue.mk MOSFETDopingType.PChannel 1 1 1 1) [0, 0] 2 295

/-- Witness MOSFET for the amended claim C9, triode region, distinct nets. -/
def c9w_self : MOSFETComponentState :=
  MOSFETComponentState.mk 0 1 2
    (MOSFETComponentValue.mk MOSFETDopingType.PChannel 1 1 1 1) [0, 0] 2 295

/-- Four fresh nets for the C9 witness. -/
def c9w_nets : List NetState :=
  [NetState.new_empty, NetState.new_empty, NetState.new_empty, NetState.new_empty]

/-- The C9 witness output nets: one vote each on the source and drain nets. -/
def c9w_out : List NetState :=
  [{ NetState.new_empty with voltage_accumulator_sources := 1 }, NetState.new_empty,
    { NetState.new_empty with voltage_accumulator_sources := 1 }, NetState.new_empty]

/-- Witness MOSFET in cutoff (`I_ds = 0`, `V_gs − V_th = −1 ≤ 0`). -/
def c9cut_self : MOSFETComponentState :=
  MOSFETComponentState.mk 0 1 2
    (MOSFETComponentValue.mk MOSFETDopingType.PChannel 1 1 1 1) [0, 0] 0 295

/-- Witness MOSFET in saturation (`I_ds = 2`, `V_ctrl = 1`,
`1·0.99999 ≤ 2·2/1`). -/
def c9sat_self : MOSFETComponentState :=
  MOSFETComponentState.mk 0 1 2
    (MOSFETComponentValue.mk MOSFETDopingType.PChannel 1 1 1 1) [2, 0] 2 295

-- ---------------------- HELPER LEMMAS ----------------------

/-- Unfolding of the boolean convergence test into the epsilon inequality. -/
theorem hasConverged_iff {a b : F} : hasConverged a b = true ↔ |a - b| ≤ EPSILON := by
  simp [hasConverged]

/-- Absolute-value-free form of the convergence test, for concrete evaluation. -/
theorem hasConverged_eq (a b : F) :
    hasConverged a b = (decide (-EPSILON ≤ a - b) && decide (a - b ≤ EPSILON)) := by
  simp [hasConverged, abs_le, Bool.and_comm]

/-- Every net state passes the (disabled) current-convergence check. -/
theorem all_current_converged (l : List NetState) :
    l.all NetState.current_converged = true := by
  induction l with
  | nil => rfl
  | cons x xs ih => simp [List.all_cons, ih, NetState.current_converged]

/-- Reading a modified list away from the modified index. -/
theorem listGetD_listModify_ne {α : Type} (l : List α) (i j : ℕ) (g : α → α) (d : α)
    (h : j ≠ i) : listGetD (listModify l i g) j d = listGetD l j d := by
  induction l generalizing i j with
  | nil => simp [listModify]
  | cons x xs ih =>
    cases i with
    | zero =>
      cases j with
      | zero => exact absurd rfl h
      | succ j => simp [listModify, listGetD]
    | succ i =>
      cases j with
      | zero => simp [listModify, listGetD]
      | succ j => simpa [listModify, listGetD] using ih i j (fun hji => h (by omega))

/-- A projection preserved by the modifying function is preserved by
`listModify` at every index. -/
theorem listGetD_listModify_proj {α β : Type} (p : α → β) (g : α → α)
    (hp : ∀ x, p (g x) = p x) (l : List α) (i j : ℕ) (d : α) :
    p (listGetD (listModify l i g) j d) = p (listGetD l j d) := by
  induction l generalizing i j with
  | nil => simp [listModify]
  | cons x xs ih =>
    cases i with
    | zero =>
      cases j with
      | zero => simpa [listModify, listGetD] using hp x
      | succ j => simp [listModify, listGetD]
    | succ i =>
      cases j with
      | zero => simp [listModify, listGetD]
      | succ j => simpa [listModify, listGetD] using ih i j

/-- The perturbation sweep's conjunction verdict is the conjunction of the
per-component verdicts. -/
theorem chargePerturb_flag (nets : List NetState) :
    ∀ comps : List ComponentStateEnum,
      (chargePerturb comps nets).2 = comps.all fun comp =>
        match comp with
        | ComponentStateEnum.Linear v => (v.purturb_from_nets nets).2 := by
  intro comps
  induction comps with
  | nil => rfl
  | cons c rest ih =>
    cases c with
    | Linear v => simp [chargePerturb, ih, List.all_cons]

-- ---------------------- CLAIM C4 ----------------------

/-- Claim C4: `current_converged` returns `true` for every net state — the
`ε_i = 0` residual comparison is short-circuited away by the `true || ...` —
and consequently the verdict of `correct_charge_states` is exactly the
conjunction of the components' `purturb_from_nets` verdicts, independent of
the net current imbalances. -/
theorem claim_C4_current_check_disabled :
    (∀ net : NetState, net.current_converged = true) ∧
    (∀ c : CircuitState,
      (c.correct_charge_states).2 = (chargePerturb c.components c.charge_prep).2) ∧
    (∀ c : CircuitState,
      (c.correct_charge_states).2 = c.components.all fun comp =>
        match comp with
        | ComponentStateEnum.Linear v => (v.purturb_from_nets c.charge_prep).2) := by
  refine ⟨fun net => rfl, fun c => ?_, fun c => ?_⟩
  · simp only [CircuitState.correct_charge_states, all_current_converged, Bool.and_true]
  · simp only [CircuitState.correct_charge_states, all_current_converged, Bool.and_true]
    exact chargePerturb_flag _ c.components

-- ---------------------- CLAIM C6 ----------------------

/-- Claim C6: `apply_accumulated_voltage` with vote count zero reports
converged and leaves the net unchanged; with a positive vote count it computes
`v_next = accumulator / votes`, reports convergence iff
`|v_next − voltage| ≤ ε_v = 1e-12` against the pre-update voltage, installs
`v_next`, and resets the accumulator and the count. -/
theorem claim_C6_apply_accumulated_voltage (net : NetState) :
    (net.voltage_accumulator_sources = 0 →
      net.apply_accumulated_voltage = (net, true)) ∧
    (net.voltage_accumulator_sources ≠ 0 →
      net.apply_accumulated_voltage =
        ({ net with
            voltage := net.voltage_accumulator / (net.voltage_accumulator_sources : F)
            voltage_accumulator := 0
            voltage_accumulator_sources := 0 },
          decide (|net.voltage_accumulator / (net.voltage_accumulator_sources : F) -
            net.voltage| ≤ EPSILON))) := by
  constructor
  · intro h
    simp [NetState.apply_accumulated_voltage, h]
  · intro h
    simp only [NetState.apply_accumulated_voltage, if_neg h, hasConverged, abs_sub_comm]

/-- Witness for claim C6 at an empty net (zero votes) and at a net carrying
accumulator 7 over 2 votes. -/
theorem claim_C6_witness :
    (NetState.new_empty.apply_accumulated_voltage = (NetState.new_empty, true)) ∧
    (({ NetState.new_empty with
        voltage_accumulator := 7, voltage_accumulator_sources := 2 } : NetState).apply_accumulated_voltage =
      ({ ({ NetState.new_empty with
            voltage_accumulator := 7, voltage_accumulator_sources := 2 } : NetState) with
          voltage := (7 : F) / ((2 : ℕ) : F)
          voltage_accumulator := 0
          voltage_accumulator_sources := 0 },
        decide (|(7 : F) / ((2 : ℕ) : F) - (0 : F)| ≤ EPSILON))) :=
  ⟨(claim_C6_apply_accumulated_voltage NetState.new_empty).1 rfl,
    (claim_C6_apply_accumulated_voltage _).2 (by decide)⟩

-- ---------------------- CLAIM C7 ----------------------

/-- Claim C7: an open switch declines both impart operations — the nets come
back exactly as given, with no vote cast, no current contribution and no
counter incremented — and its `purturb_from_nets` forces the internal entries
`I` and `dI/dt` to exactly 0 while touching nothing else (charge `Q`, the
value, the offset emf and the terminal bindings are unchanged). -/
theorem claim_C7_open_switch (self : LinearComponentState) (nets : List NetState)
    (step : F) (h : self.value = LinearComponentValue.Switch false) :
    self.impart_voltage_to_nets nets step = nets ∧
    self.impart_currents_to_nets nets = nets ∧
    (self.purturb_from_nets nets).1 = { self with q1 := 0, q2 := 0 } := by
  refine ⟨?_, ?_, ?_⟩
  · simp [LinearComponentState.impart_voltage_to_nets, LinearComponentState.v_target_opt, h]
  · simp [LinearComponentState.impart_currents_to_nets, h]
  · simp [LinearComponentState.purturb_from_nets, h]

/-- Witness for claim C7: a concrete open switch with nonzero internal state
between two concrete nets. -/
theorem claim_C7_witness :
    (LinearComponentState.mk 0 1 (LinearComponentValue.Switch false) 3 4 5 6).impart_voltage_to_nets
        [NetState.new_empty, { NetState.new_empty with voltage := 2 }] (1 / 2) =
      [NetState.new_empty, { NetState.new_empty with voltage := 2 }] ∧
    (LinearComponentState.mk 0 1 (LinearComponentValue.Switch false) 3 4 5 6).impart_currents_to_nets
        [NetState.new_empty, { NetState.new_empty with voltage := 2 }] =
      [NetState.new_empty, { NetState.new_empty with voltage := 2 }] ∧
    ((LinearComponentState.mk 0 1 (LinearComponentValue.Switch false) 3 4 5 6).purturb_from_nets
        [NetState.new_empty, { NetState.new_empty with voltage := 2 }]).1 =
      { LinearComponentState.mk 0 1 (LinearComponentValue.Switch false) 3 4 5 6 with
          q1 := 0, q2 := 0 } :=
  claim_C7_open_switch _ _ _ rfl

-- ---------------------- CLAIM C5 ----------------------

/-- Counterexample to claim C5 as stated: for the resistor above,
`−v_target/R = −1` while `i_target[0] = 0`, and `purturb_from_nets` sets the
internal current `I` to `0` — the `i_target[0]` end of the blend — not to
`−v_target/R`; the claim's primary assignment `I ← −v_target/R` is false. -/
theorem claim_C5_counterexample :
    (c5_resistor.purturb_from_nets c5_nets).1.q1 = 0 ∧
    -(((listGetD c5_nets 1 default).voltage - (listGetD c5_nets 0 default).voltage)) / 1 = -1 ∧
    (0 : F) ≠ -1 := by
  norm_num [c5_resistor, c5_nets, LinearComponentState.purturb_from_nets, listGetD,
    lerp, FACTOR_R, NetState.new_empty]

/-- Claim C5 as amended: for every resistor with resistance R,
`purturb_from_nets` sets the internal current `I` to the FACTOR_R-blend
`lerp(FACTOR_R; −v_target/R, i_target[0])`, which at `FACTOR_R = 1.0` equals
`i_target[0]` exactly; it sets `dI/dt` to `i_target[1]`; the charge `Q` and
all other fields are unchanged (`v_target` is the terminal-1-minus-terminal-0
net voltage and `i_target[k] = I_k + ½·(imbalance at net 0 − imbalance at
net 1)`). -/
theorem claim_C5_resistor_perturb (self : LinearComponentState) (r : F)
    (nets : List NetState) (h : self.value = LinearComponentValue.Resistive r) :
    (self.purturb_from_nets nets).1 =
      { self with
          q1 := lerp FACTOR_R
            (-((listGetD nets self.connected_nets_i1 default).voltage -
                (listGetD nets self.connected_nets_i0 default).voltage) / r)
            (self.q1 + (1 / 2) *
              ((listGetD nets self.connected_nets_i0 default).current0 -
                (listGetD nets self.connected_nets_i1 default).current0))
          q2 := self.q2 + (1 / 2) *
            ((listGetD nets self.connected_nets_i0 default).current1 -
              (listGetD nets self.connected_nets_i1 default).current1) } ∧
    lerp FACTOR_R
        (-((listGetD nets self.connected_nets_i1 default).voltage -
            (listGetD nets self.connected_nets_i0 default).voltage) / r)
        (self.q1 + (1 / 2) *
          ((listGetD nets self.connected_nets_i0 default).current0 -
            (listGetD nets self.connected_nets_i1 default).current0)) =
      self.q1 + (1 / 2) *
        ((listGetD nets self.connected_nets_i0 default).current0 -
          (listGetD nets self.connected_nets_i1 default).current0) := by
  constructor
  · simp [LinearComponentState.purturb_from_nets, h]
  · simp [lerp, FACTOR_R]

/-- Witness for the amended claim C5 at the concrete resistor above: the
blend lands on `i_target[0] = 0` even though `−v_target/R = −1`. -/
theorem claim_C5_witness :
    (c5_resistor.purturb_from_nets c5_nets).1 =
      { c5_resistor with
          q1 := lerp FACTOR_R
            (-((listGetD c5_nets 1 default).voltage -
                (listGetD c5_nets 0 default).voltage) / 1)
            (c5_resistor.q1 + (1 / 2) *
              ((listGetD c5_nets 0 default).current0 -
                (listGetD c5_nets 1 default).current0))
          q2 := c5_resistor.q2 + (1 / 2) *
            ((listGetD c5_nets 0 default).current1 -
              (listGetD c5_nets 1 default).current1) } :=
  (claim_C5_resistor_perturb c5_resistor 1 c5_nets rfl).1

-- ---------------------- CLAIM C1 ----------------------

/-- Claim C1 (the code side): for every MOSFET state whose dynamic current
vector has its declared length 2, `tick` reads `self.i[2]` — one entry past
the end of `i: [f; 2]` — so the update `self.i[1] += self.i[2] * dt` is an
out-of-bounds access (an unconditional panic) rather than the specified
`i[0] += i[1]·dt`; the embedded `tick` yields `none` for every such state. -/
theorem claim_C1_mosfet_tick_out_of_bounds (self : MOSFETComponentState) (dt : F)
    (h : self.i.length = 2) : self.tick dt = none := by
  rcases self with ⟨a0, a1, a2, v, ilist, w, T⟩
  cases ilist with
  | nil => simp at h
  | cons x xs =>
    cases xs with
    | nil => simp at h
    | cons y ys =>
      cases ys with
      | nil => rfl
      | cons z zs => simp at h

/-- Witness for claim C1: the freshly constructed MOSFET state (current
vector `[0, 0]`) panics on `tick(1)`. -/
theorem claim_C1_witness :
    (MOSFETComponentState.new
        (MOSFETComponentValue.mk MOSFETDopingType.PChannel (2 / 100) 1 (1 / 1000000) 1)
        0 1 2).i.length = 2 ∧
    (MOSFETComponentState.new
        (MOSFETComponentValue.mk MOSFETDopingType.PChannel (2 / 100) 1 (1 / 1000000) 1)
        0 1 2).tick 1 = none :=
  ⟨rfl, claim_C1_mosfet_tick_out_of_bounds _ 1 rfl⟩

-- ---------------------- SOLVER LOOP LEMMAS ----------------------

/-- Once a voltage pass has failed, the micro-loop's `converged` flag is never
restored, whatever later passes do. -/
theorem voltageMicroLoop_false_flag (step : F) :
    ∀ (fuel : ℕ) (c : CircuitState), (voltageMicroLoop step fuel c false).2.1 = false := by
  intro fuel
  induction fuel with
  | zero => intro c; rfl
  | succ n ih =>
    intro c
    simp only [voltageMicroLoop]
    cases h : (c.correct_voltages step).2 with
    | true => simp [h]
    | false => simp [h, ih]

/-- Stepping the micro-loop when the current pass converges: break with the
incoming flag. -/
theorem voltageMicroLoop_succ_true {step : F} {fuel : ℕ} {c : CircuitState} {flag : Bool}
    (h : (c.correct_voltages step).2 = true) :
    voltageMicroLoop step (fuel + 1) c flag = ((c.correct_voltages step).1, flag, true) := by
  simp [voltageMicroLoop, h]

/-- Stepping the micro-loop when the current pass fails: clear the flag and
continue. -/
theorem voltageMicroLoop_succ_false {step : F} {fuel : ℕ} {c : CircuitState} {flag : Bool}
    (h : (c.correct_voltages step).2 = false) :
    voltageMicroLoop step (fuel + 1) c flag =
      voltageMicroLoop step fuel (c.correct_voltages step).1 false := by
  simp [voltageMicroLoop, h]

/-- Stepping the outer loop at a converged round. -/
theorem solveStateGo_of_true {stepSeq : ℕ → F} {fuel idx : ℕ} {c : CircuitState}
    (h : (c.outer_round (stepSeq idx)).2.1 = true) :
    solveStateGo stepSeq (fuel + 1) idx c = ((c.outer_round (stepSeq idx)).1, true) := by
  simp [solveStateGo, h]

/-- Stepping the outer loop at an unconverged round. -/
theorem solveStateGo_of_false {stepSeq : ℕ → F} {fuel idx : ℕ} {c : CircuitState}
    (h : (c.outer_round (stepSeq idx)).2.1 = false) :
    solveStateGo stepSeq (fuel + 1) idx c =
      solveStateGo stepSeq fuel (idx + 1) (c.outer_round (stepSeq idx)).1 := by
  simp [solveStateGo, h]

/-- Round-counting view, converged round. -/
theorem solveRoundsGo_of_true {stepSeq : ℕ → F} {fuel idx : ℕ} {c : CircuitState}
    (h : (c.outer_round (stepSeq idx)).2.1 = true) :
    solveRoundsGo stepSeq (fuel + 1) idx c = some idx := by
  simp [solveRoundsGo, h]

/-- Round-counting view, unconverged round. -/
theorem solveRoundsGo_of_false {stepSeq : ℕ → F} {fuel idx : ℕ} {c : CircuitState}
    (h : (c.outer_round (stepSeq idx)).2.1 = false) :
    solveRoundsGo stepSeq (fuel + 1) idx c =
      solveRoundsGo stepSeq fuel (idx + 1) (c.outer_round (stepSeq idx)).1 := by
  simp [solveRoundsGo, h]

/-- Spec-side round counting, round accepted by the claim's criterion. -/
theorem claimRoundsGo_of_true {stepSeq : ℕ → F} {fuel idx : ℕ} {c : CircuitState}
    (h : ((c.outer_round (stepSeq idx)).2.2.1 && (c.outer_round (stepSeq idx)).2.2.2) = true) :
    claimRoundsGo stepSeq (fuel + 1) idx c = some idx := by
  simp only [claimRoundsGo]
  rw [h]
  rfl

/-- The convergence verdict of the zeroth round after position `idx`. -/
theorem roundConv_zero (stepSeq : ℕ → F) (idx : ℕ) (c : CircuitState) :
    roundConv stepSeq idx c 0 = (c.outer_round (stepSeq idx)).2.1 := by
  simp [roundConv, roundState]

/-- Shifting the convergence verdict of a later round across the first round. -/
theorem roundConv_succ (stepSeq : ℕ → F) (idx : ℕ) (c : CircuitState) (j : ℕ) :
    roundConv stepSeq idx c (j + 1) =
      roundConv stepSeq (idx + 1) (c.outer_round (stepSeq idx)).1 j := by
  unfold roundConv
  rw [show idx + (j + 1) = idx + 1 + j by omega]
  rfl

/-- The outer loop returns `true` exactly when the round-counting view finds a
converged round. -/
theorem solveGo_eq_roundsGo (stepSeq : ℕ → F) :
    ∀ (fuel idx : ℕ) (c : CircuitState),
      (solveStateGo stepSeq fuel idx c).2 = (solveRoundsGo stepSeq fuel idx c).isSome := by
  intro fuel
  induction fuel with
  | zero => intro idx c; rfl
  | succ n ih =>
    intro idx c
    cases h : (c.outer_round (stepSeq idx)).2.1 with
    | true => rw [solveStateGo_of_true h, solveRoundsGo_of_true h]; rfl
    | false => rw [solveStateGo_of_false h, solveRoundsGo_of_false h, ih]

/-- Full characterization of the round-counting view: a round index is
returned iff it is the first converged round within the fuel budget. -/
theorem roundsGo_some_iff (stepSeq : ℕ → F) :
    ∀ (fuel idx : ℕ) (c : CircuitState) (k : ℕ),
      solveRoundsGo stepSeq fuel idx c = some k ↔
        ∃ j, j < fuel ∧ k = idx + j ∧ roundConv stepSeq idx c j = true ∧
          ∀ j', j' < j → roundConv stepSeq idx c j' = false := by
  intro fuel
  induction fuel with
  | zero =>
    intro idx c k
    simp [solveRoundsGo]
  | succ n ih =>
    intro idx c k
    cases h : (c.outer_round (stepSeq idx)).2.1 with
    | true =>
      rw [solveRoundsGo_of_true h]
      constructor
      · intro h'
        injection h' with h'
        exact ⟨0, by omega, by omega, by rw [roundConv_zero, h], fun j' hj' => absurd hj' (by omega)⟩
      · rintro ⟨j, hj, hk, hc, hmin⟩
        have hj0 : j = 0 := by
          by_contra hne
          have := hmin 0 (by omega)
          rw [roundConv_zero, h] at this
          exact absurd this (by simp)
        subst hj0
        simp [hk]
    | false =>
      rw [solveRoundsGo_of_false h, ih]
      constructor
      · rintro ⟨j, hj, hk, hc, hmin⟩
        refine ⟨j + 1, by omega, by omega, ?_, ?_⟩
        · rw [roundConv_succ]; exact hc
        · intro j' hj'
          cases j' with
          | zero => rw [roundConv_zero]; exact h
          | succ j'' => rw [roundConv_succ]; exact hmin j'' (by omega)
      · rintro ⟨j, hj, hk, hc, hmin⟩
        cases j with
        | zero =>
          rw [roundConv_zero, h] at hc
          exact absurd hc (by simp)
        | succ j'' =>
          refine ⟨j'', by omega, by omega, ?_, ?_⟩
          · rw [roundConv_succ] at hc; exact hc
          · intro j' hj'
            have := hmin (j' + 1) (by omega)
            rw [roundConv_succ] at this
            exact this

-- ---------------------- CONCRETE CIRCUITS FOR C2 / C3 ----------------------

/-- Evaluation of the single outer round on the inductor circuit: the round
converges immediately (voltage pass trivially converged, inductor perturb
moves nothing) while the 5-ampere imbalance remains. -/
theorem c2_round0 : c2_circuit.outer_round (1 / 2) = (c2_final, true, true, true) := by
  norm_num [c2_circuit, c2_final, CircuitState.outer_round, voltageMicroLoop,
    CircuitState.correct_voltages, LinearComponentState.impart_voltage_to_nets,
    LinearComponentState.v_target_opt, voteOn, voteFn, listModify, listGetD,
    NetState.apply_accumulated_voltage, hasConverged_eq, EPSILON,
    CircuitState.correct_charge_states, CircuitState.charge_prep, chargePerturb,
    LinearComponentState.impart_currents_to_nets, addCurrent,
    NetState.normalize_current, NetState.current_converged, converged_to_zero,
    LinearComponentState.purturb_from_nets, lerp, FACTOR_L, NetState.new_empty]

-- ---------------------- CLAIM C2 ----------------------

/-- Counterexample to claim C2 as stated: on the inductor circuit,
`solve_state` returns `true` (converged) on its first outer round, yet the
signed sum of branch-current contributions at net 0 of the solved state is
`−5` amperes — Kirchhoff's current law fails by 12 orders of magnitude beyond
`ε_v`.  The damping value used by the one executed round is `1/2`, exactly the
source's round-0 value. -/
theorem claim_C2_counterexample :
    ((c2_circuit.solve_state halfSeq).2 = true) ∧
    ((c2_circuit.solve_state halfSeq).1.net_residual 0 = -5) ∧
    ¬(|(c2_circuit.solve_state halfSeq).1.net_residual 0| ≤ EPSILON) := by
  have h1 : (c2_circuit.outer_round (halfSeq 0)).2.1 = true := by
    rw [show halfSeq 0 = 1 / 2 from rfl, c2_round0]
  have hs : c2_circuit.solve_state halfSeq = (c2_final, true) := by
    show solveStateGo halfSeq 1000 0 c2_circuit = _
    rw [solveStateGo_of_true h1, show halfSeq 0 = 1 / 2 from rfl, c2_round0]
  rw [hs]
  refine ⟨rfl, ?_, ?_⟩
  · norm_num [c2_final, CircuitState.net_residual,
      LinearComponentState.impart_currents_to_nets, addCurrent, listModify,
      listGetD, NetState.new_empty]
  · have : (c2_final.net_residual 0) = -5 := by
      norm_num [c2_final, CircuitState.net_residual,
        LinearComponentState.impart_currents_to_nets, addCurrent, listModify,
        listGetD, NetState.new_empty]
    rw [this, abs_le]
    norm_num [EPSILON]

/-- A converged `purturb_from_nets` moved the internal current entries by at
most `ε_v`. -/
theorem purturb_conv_bounds (v : LinearComponentState) (nets : List NetState)
    (h : (v.purturb_from_nets nets).2 = true) :
    |(v.purturb_from_nets nets).1.q1 - v.q1| ≤ EPSILON ∧
    |(v.purturb_from_nets nets).1.q2 - v.q2| ≤ EPSILON := by
  simp only [LinearComponentState.purturb_from_nets, Bool.and_eq_true] at h ⊢
  obtain ⟨h1, h2⟩ := h
  rw [hasConverged_iff] at h1 h2
  rw [abs_sub_comm] at h1 h2
  exact ⟨h1, h2⟩

/-- Claim C2 as amended: when `solve_state` returns converged (at its first
converged round `k`), what is guaranteed is per-component, not per-net: every
component's `purturb_from_nets` in round `k`'s charge correction reported
convergence, i.e. moved the internal current entries `I` and `dI/dt` by at
most `ε_v = 1e-12`.  No bound on the per-net signed sum of branch currents
follows; KCL can fail at the solved point by arbitrary amounts. -/
theorem claim_C2_amended (stepSeq : ℕ → F) (c : CircuitState) (k : ℕ)
    (h : c.solve_state_rounds stepSeq = some k) :
    ((c.solve_state stepSeq).2 = true) ∧
    ∀ comp ∈ (CircuitState.charge_input stepSeq c k).components,
      match comp with
      | ComponentStateEnum.Linear v =>
        (v.purturb_from_nets ((CircuitState.charge_input stepSeq c k).charge_prep)).2 = true ∧
        |(v.purturb_from_nets ((CircuitState.charge_input stepSeq c k).charge_prep)).1.q1 -
          v.q1| ≤ EPSILON ∧
        |(v.purturb_from_nets ((CircuitState.charge_input stepSeq c k).charge_prep)).1.q2 -
          v.q2| ≤ EPSILON := by
  constructor
  · show (solveStateGo stepSeq 1000 0 c).2 = true
    rw [solveGo_eq_roundsGo]
    show (c.solve_state_rounds stepSeq).isSome = true
    rw [h]
    rfl
  · have hconv : roundConv stepSeq 0 c k = true := by
      have := (roundsGo_some_iff stepSeq 1000 0 c k).1 h
      obtain ⟨j, _, hkj, hc, _⟩ := this
      have : j = k := by omega
      subst this
      exact hc
    have hch : ((CircuitState.charge_input stepSeq c k).correct_charge_states).2 = true := by
      have hr : ((roundState stepSeq 0 k c).outer_round (stepSeq (0 + k))).2.1 = true := hconv
      rw [Nat.zero_add] at hr
      unfold CircuitState.outer_round at hr
      simp only [Bool.and_eq_true] at hr
      exact hr.2
    rw [show ((CircuitState.charge_input stepSeq c k).correct_charge_states).2 =
        ((chargePerturb (CircuitState.charge_input stepSeq c k).components
            ((CircuitState.charge_input stepSeq c k).charge_prep)).2 &&
          ((CircuitState.charge_input stepSeq c k).charge_prep).all
            NetState.current_converged) from rfl] at hch
    rw [all_current_converged, Bool.and_true, chargePerturb_flag] at hch
    rw [List.all_eq_true] at hch
    intro comp hcomp
    have := hch comp hcomp
    cases comp with
    | Linear v =>
      simp only at this ⊢
      exact ⟨this, purturb_conv_bounds v _ this⟩

/-- Witness for the amended claim C2 on the inductor circuit, whose first
converged round is round 0. -/
theorem claim_C2_amended_witness :
    (c2_circuit.solve_state_rounds halfSeq = some 0) ∧
    (((c2_circuit.solve_state halfSeq).2 = true) ∧
      ∀ comp ∈ (CircuitState.charge_input halfSeq c2_circuit 0).components,
        match comp with
        | ComponentStateEnum.Linear v =>
          (v.purturb_from_nets
            ((CircuitState.charge_input halfSeq c2_circuit 0).charge_prep)).2 = true ∧
          |(v.purturb_from_nets
              ((CircuitState.charge_input halfSeq c2_circuit 0).charge_prep)).1.q1 -
            v.q1| ≤ EPSILON ∧
          |(v.purturb_from_nets
              ((CircuitState.charge_input halfSeq c2_circuit 0).charge_prep)).1.q2 -
            v.q2| ≤ EPSILON) :=
  have h : c2_circuit.solve_state_rounds halfSeq = some 0 :=
    solveRoundsGo_of_true (by rw [show halfSeq 0 = 1 / 2 from rfl, c2_round0])
  ⟨h, claim_C2_amended halfSeq c2_circuit 0 h⟩

-- ---------------------- CLAIM C3 ----------------------

/-- Evaluation of round 0 on the small-source circuit: the source verdict is
`false` although the final micro-loop pass converged and the charge-state
correction converged. -/
theorem c3_round0 : c3_circuit.outer_round (1 / 2) = (c3_mid, false, true, true) := by
  norm_num [c3_circuit, c3_mid, CircuitState.outer_round, voltageMicroLoop,
    CircuitState.correct_voltages, LinearComponentState.impart_voltage_to_nets,
    LinearComponentState.v_target_opt, voteOn, voteFn, listModify, listGetD,
    NetState.apply_accumulated_voltage, hasConverged_eq, EPSILON,
    CircuitState.correct_charge_states, CircuitState.charge_prep, chargePerturb,
    LinearComponentState.impart_currents_to_nets, addCurrent,
    NetState.normalize_current, NetState.current_converged, converged_to_zero,
    LinearComponentState.purturb_from_nets, lerp, FACTOR_L, NetState.new_empty]

/-- Round 1 on the post-round-0 state converges under the source criterion
(its first voltage pass moves each net by only `ε_v/2`). -/
theorem c3_round1 : (c3_mid.outer_round (1 / 2)).2.1 = true := by
  norm_num [c3_mid, CircuitState.outer_round, voltageMicroLoop,
    CircuitState.correct_voltages, LinearComponentState.impart_voltage_to_nets,
    LinearComponentState.v_target_opt, voteOn, voteFn, listModify, listGetD,
    NetState.apply_accumulated_voltage, hasConverged_eq, EPSILON,
    CircuitState.correct_charge_states, CircuitState.charge_prep, chargePerturb,
    LinearComponentState.impart_currents_to_nets, addCurrent,
    NetState.normalize_current, NetState.current_converged, converged_to_zero,
    LinearComponentState.purturb_from_nets, lerp, FACTOR_L, NetState.new_empty]

/-- Counterexample to claim C3 as stated: on `c3_circuit`, round 0's final
voltage micro-loop pass converged and its charge-state correction converged —
under the claim's round criterion `solve_state` would return `true` on round 0
— yet the source's verdict for round 0 is `false` (the flag cleared by the
failed first pass is never restored), and `solve_state` actually returns at
round 1, not round 0. -/
theorem claim_C3_counterexample :
    ((c3_circuit.outer_round (1 / 2)).2.1 = false) ∧
    ((c3_circuit.outer_round (1 / 2)).2.2.1 = true) ∧
    ((c3_circuit.outer_round (1 / 2)).2.2.2 = true) ∧
    (c3_circuit.solve_state_rounds halfSeq = some 1) ∧
    (c3_circuit.claim_solve_state_rounds halfSeq = some 0) := by
  refine ⟨by rw [c3_round0], by rw [c3_round0], by rw [c3_round0], ?_, ?_⟩
  · show solveRoundsGo halfSeq 1000 0 c3_circuit = some 1
    rw [solveRoundsGo_of_false (by rw [show halfSeq 0 = 1 / 2 from rfl, c3_round0])]
    rw [show (c3_circuit.outer_round (halfSeq 0)).1 = c3_mid by
      rw [show halfSeq 0 = 1 / 2 from rfl, c3_round0]]
    exact solveRoundsGo_of_true (by rw [show halfSeq 1 = 1 / 2 from rfl]; exact c3_round1)
  · show claimRoundsGo halfSeq 1000 0 c3_circuit = some 0
    apply claimRoundsGo_of_true
    rw [show halfSeq 0 = 1 / 2 from rfl, c3_round0]
    rfl

/-- Claim C3 as amended: `solve_state` returns `true` iff one of its 1000
outer rounds is converged under the source's criterion, and it returns at the
first such round; a round's verdict is the conjunction of the charge-state
correction verdict with the micro-loop flag, which equals the verdict of the
FIRST voltage pass of the round (the flag cleared by a failing pass is never
restored, even when a later pass converges and breaks the micro-loop). -/
theorem claim_C3_amended (stepSeq : ℕ → F) (c : CircuitState) :
    ((c.solve_state stepSeq).2 = (c.solve_state_rounds stepSeq).isSome) ∧
    (∀ (d : CircuitState) (step : F),
      (d.outer_round step).2.1 =
        ((d.correct_voltages step).2 && (d.outer_round step).2.2.2)) ∧
    (∀ k, c.solve_state_rounds stepSeq = some k ↔
      (k < 1000 ∧ roundConv stepSeq 0 c k = true ∧
        ∀ j, j < k → roundConv stepSeq 0 c j = false)) := by
  refine ⟨solveGo_eq_roundsGo stepSeq 1000 0 c, ?_, ?_⟩
  · intro d step
    unfold CircuitState.outer_round
    cases h : (d.correct_voltages step).2 with
    | true =>
      rw [voltageMicroLoop_succ_true h]
    | false =>
      rw [voltageMicroLoop_succ_false h]
      dsimp only
      rw [voltageMicroLoop_false_flag]
  · intro k
    rw [show c.solve_state_rounds stepSeq = solveRoundsGo stepSeq 1000 0 c from rfl,
      roundsGo_some_iff]
    constructor
    · rintro ⟨j, hj, hkj, hc, hmin⟩
      have hjk : j = k := by omega
      subst hjk
      exact ⟨by omega, hc, fun j' hj' => hmin j' hj'⟩
    · rintro ⟨hk, hc, hmin⟩
      exact ⟨k, by omega, by omega, hc, hmin⟩

/-- Witness for the amended claim C3 at the concrete small-source circuit. -/
theorem claim_C3_amended_witness :
    ((c3_circuit.solve_state halfSeq).2 = (c3_circuit.solve_state_rounds halfSeq).isSome) ∧
    ((c3_circuit.outer_round (1 / 2)).2.1 =
      ((c3_circuit.correct_voltages (1 / 2)).2 && (c3_circuit.outer_round (1 / 2)).2.2.2)) :=
  ⟨(claim_C3_amended halfSeq c3_circuit).1,
    (claim_C3_amended halfSeq c3_circuit).2.1 c3_circuit (1 / 2)⟩

-- ---------------------- CLAIM C10 ----------------------

/-- A net with no pending votes is untouched by `apply_accumulated_voltage`. -/
theorem apply_accumulated_voltage_no_votes (n : NetState)
    (h : n.voltage_accumulator_sources = 0) :
    n.apply_accumulated_voltage = (n, true) := by
  simp [NetState.apply_accumulated_voltage, h]

/-- Normalizing a net whose imbalance entries are zero only zeroes the
source counter. -/
theorem normalize_current_zeroed (n : NetState) :
    NetState.normalize_current { n with current0 := 0, current1 := 0 } =
      { n with current0 := 0, current1 := 0, current_sources := 0 } := by
  cases n with
  | mk comps c0 c1 cs v va vas =>
    by_cases hcs : cs = 0
    · simp [NetState.normalize_current, hcs]
    · simp [NetState.normalize_current, hcs]

/-- A voltage pass over a circuit with no components: no votes are cast, and
(nets having no pending votes) every net is untouched and reports converged. -/
theorem correct_voltages_no_components (nets : List NetState) (step : F)
    (h : ∀ n ∈ nets, n.voltage_accumulator_sources = 0) :
    (CircuitState.mk [] nets).correct_voltages step = (CircuitState.mk [] nets, true) := by
  simp only [CircuitState.correct_voltages, List.foldl_nil]
  rw [List.map_congr_left fun n hn => apply_accumulated_voltage_no_votes n (h n hn)]
  simp [Function.comp_def, List.all_eq_true]

/-- The charge-state correction over a circuit with no components: it zeroes
each net's imbalance vector and source counter and reports converged. -/
theorem correct_charge_states_no_components (nets : List NetState) :
    (CircuitState.mk [] nets).correct_charge_states =
      (CircuitState.mk [] (nets.map fun n =>
        { n with current0 := 0, current1 := 0, current_sources := 0 }), true) := by
  have hprep : (CircuitState.mk [] nets).charge_prep =
      nets.map fun n => { n with current0 := 0, current1 := 0, current_sources := 0 } := by
    simp only [CircuitState.charge_prep, List.foldl_nil, List.map_map]
    exact List.map_congr_left fun n _ => normalize_current_zeroed n
  show (_, (chargePerturb [] _).2 && _) = _
  rw [hprep, all_current_converged]
  rfl

/-- Claim C10: on a circuit with nets but no components (with no stale votes
pending — an invariant of every state produced by the public API),
`solve_state` returns `true` on its first outer round and leaves every net's
voltage (and vote accumulator) unchanged; the only state it touches is the
current-imbalance vector and its source counter, which it zeroes. -/
theorem claim_C10_empty_components (stepSeq : ℕ → F) (nets : List NetState)
    (h : ∀ n ∈ nets, n.voltage_accumulator_sources = 0) :
    (CircuitState.mk [] nets).solve_state stepSeq =
      (CircuitState.mk [] (nets.map fun n =>
        { n with current0 := 0, current1 := 0, current_sources := 0 }), true) ∧
    (CircuitState.mk [] nets).solve_state_rounds stepSeq = some 0 := by
  have hround : (CircuitState.mk [] nets).outer_round (stepSeq 0) =
      (CircuitState.mk [] (nets.map fun n =>
        { n with current0 := 0, current1 := 0, current_sources := 0 }), true, true, true) := by
    unfold CircuitState.outer_round
    rw [voltageMicroLoop_succ_true (by rw [correct_voltages_no_components nets _ h])]
    rw [correct_voltages_no_components nets _ h]
    dsimp only
    rw [correct_charge_states_no_components]
    rfl
  constructor
  · show solveStateGo stepSeq 1000 0 _ = _
    rw [solveStateGo_of_true (by rw [hround]), hround]
  · show solveRoundsGo stepSeq 1000 0 _ = _
    exact solveRoundsGo_of_true (by rw [hround])

/-- Witness for claim C10: two nets at 3 V and 7 V, the second carrying a
stale imbalance, no components. -/
theorem claim_C10_witness :
    (∀ n ∈ [{ NetState.new_empty with voltage := (3 : F) },
        { NetState.new_empty with voltage := (7 : F), current0 := 9, current_sources := 4 }],
      n.voltage_accumulator_sources = 0) ∧
    (CircuitState.mk [] [{ NetState.new_empty with voltage := (3 : F) },
        { NetState.new_empty with voltage := (7 : F), current0 := 9, current_sources := 4 }]).solve_state halfSeq =
      (CircuitState.mk []
        ([{ NetState.new_empty with voltage := (3 : F) },
          { NetState.new_empty with voltage := (7 : F), current0 := 9, current_sources := 4 }].map
          fun n => { n with current0 := 0, current1 := 0, current_sources := 0 }), true) ∧
    (CircuitState.mk [] [{ NetState.new_empty with voltage := (3 : F) },
        { NetState.new_empty with voltage := (7 : F), current0 := 9, current_sources := 4 }]).solve_state_rounds halfSeq =
      some 0 :=
  have h : ∀ n ∈ [{ NetState.new_empty with voltage := (3 : F) },
      { NetState.new_empty with voltage := (7 : F), current0 := 9, current_sources := 4 }],
      n.voltage_accumulator_sources = 0 := by
    simp [NetState.new_empty]
  ⟨h, (claim_C10_empty_components halfSeq _ h).1, (claim_C10_empty_components halfSeq _ h).2⟩

-- ---------------------- CLAIM C8 ----------------------

/-- Claim C8: with terminal voltages applied in the polarity appropriate to
each doping type (gate and drain voltages negated for the P-channel device),
zero initial internal current state and zero net imbalances, identical
`β`, `V_th`, `I_s`, `η` and temperature, the N-channel and P-channel devices
produce `I_ds` values of equal magnitude and opposite sign from
`purturb_from_nets` (for every abstracted `exp` and any cached `V_gs`). -/
theorem claim_C8_polarity (rexp : F → F) (beta vth is eta T wN wP vgs vds : F) :
    ∃ x : F,
      Option.map (fun r => listGetD r.1.i 0 0)
        (MOSFETComponentState.purturb_from_nets rexp
          (MOSFETComponentState.mk 0 1 2
            (MOSFETComponentValue.mk MOSFETDopingType.NChannel beta vth is eta)
            [0, 0] wN T)
          [NetState.new_empty,
            { NetState.new_empty with voltage := vgs },
            { NetState.new_empty with voltage := vds }]) = some x ∧
      Option.map (fun r => listGetD r.1.i 0 0)
        (MOSFETComponentState.purturb_from_nets rexp
          (MOSFETComponentState.mk 0 1 2
            (MOSFETComponentValue.mk MOSFETDopingType.PChannel beta vth is eta)
            [0, 0] wP T)
          [NetState.new_empty,
            { NetState.new_empty with voltage := -vgs },
            { NetState.new_empty with voltage := -vds }]) = some (-x) := by
  simp only [MOSFETComponentState.purturb_from_nets, listGetD, NetState.new_empty,
    dopingFlipVoltage, dopingFlipCurrent, List.get?, Option.map, apply_ite, sub_zero,
    neg_neg]
  norm_num
  split_ifs with h1 h2 h3
  · exact ⟨_, rfl, by rw [Option.some_inj]; simp only [listGetD, lerp]; ring⟩
  · exact ⟨_, rfl, by rw [Option.some_inj]; simp only [listGetD, lerp]; ring⟩
  · exact ⟨_, rfl, by rw [Option.some_inj]; simp only [listGetD, lerp]; ring⟩
  · exact ⟨_, rfl, by rw [Option.some_inj]; simp only [listGetD, lerp]; ring⟩

-- ---------------------- CLAIM C9 ----------------------

/-- Counterexample to claim C9 as stated: the aliased device casts its source
vote on net 0, which IS its gate net — the gate net's vote count rises from 0
to 1, so gate-net modification is possible for some device states. -/
theorem claim_C9_counterexample :
    c9_alias.connected_nets_i1 = 0 ∧
    (listGetD [NetState.new_empty, NetState.new_empty] 0 default).voltage_accumulator_sources = 0 ∧
    Option.map (fun ns => (listGetD ns 0 default).voltage_accumulator_sources)
      (MOSFETComponentState.impart_voltage_to_nets (fun x => x) (fun x => x)
        c9_alias [NetState.new_empty, NetState.new_empty] (1 / 2)) = some 1 := by
  refine ⟨rfl, rfl, ?_⟩
  norm_num [c9_alias, MOSFETComponentState.impart_voltage_to_nets, List.get?,
    dopingFlipCurrent, dopingFlipVoltage, voteOn, voteFn, listModify, listGetD,
    NetState.new_empty]

/-- Casting a vote changes no net field other than the voltage accumulator
and the vote count, at any index. -/
theorem voteOn_preserves (nets : List NetState) (i : ℕ) (d : F) (j : ℕ) :
    (listGetD (voteOn nets i d) j default).voltage = (listGetD nets j default).voltage ∧
    (listGetD (voteOn nets i d) j default).current0 = (listGetD nets j default).current0 ∧
    (listGetD (voteOn nets i d) j default).current1 = (listGetD nets j default).current1 ∧
    (listGetD (voteOn nets i d) j default).current_sources =
      (listGetD nets j default).current_sources ∧
    (listGetD (voteOn nets i d) j default).components = (listGetD nets j default).components := by
  unfold voteOn
  exact ⟨listGetD_listModify_proj (fun n : NetState => n.voltage) (voteFn d)
      (fun x => rfl) nets i j default,
    listGetD_listModify_proj (fun n : NetState => n.current0) (voteFn d)
      (fun x => rfl) nets i j default,
    listGetD_listModify_proj (fun n : NetState => n.current1) (voteFn d)
      (fun x => rfl) nets i j default,
    listGetD_listModify_proj (fun n : NetState => n.current_sources) (voteFn d)
      (fun x => rfl) nets i j default,
    listGetD_listModify_proj (fun n : NetState => n.components) (voteFn d)
      (fun x => rfl) nets i j default⟩

/-- Claim C9 as amended: `impart_voltage_to_nets` only ever votes on the nets
at its source and drain indices — every net at any other index is unchanged
(so the gate net is unmodified whenever its index differs from both, the
exception being aliased terminal bindings), and even at the source and drain
indices only the voltage accumulator and vote count change; in cutoff
(polarity-corrected `I_ds ≥ 0` and `V_gs − V_th ≤ 0`) and in saturation the
operation returns with every net exactly as given. -/
theorem claim_C9_amended (rlog rsqrt : F → F) (self : MOSFETComponentState)
    (nets : List NetState) (step : F) :
    (∀ ns, MOSFETComponentState.impart_voltage_to_nets rlog rsqrt self nets step = some ns →
      (∀ j, j ≠ self.connected_nets_i0 → j ≠ self.connected_nets_i2 →
        listGetD ns j default = listGetD nets j default) ∧
      (∀ j, (listGetD ns j default).voltage = (listGetD nets j default).voltage ∧
        (listGetD ns j default).current0 = (listGetD nets j default).current0 ∧
        (listGetD ns j default).current1 = (listGetD nets j default).current1 ∧
        (listGetD ns j default).current_sources = (listGetD nets j default).current_sources ∧
        (listGetD ns j default).components = (listGetD nets j default).components)) ∧
    (∀ i0, self.i.get? 0 = some i0 →
      0 ≤ dopingFlipCurrent self.value.ty i0 →
      self.v_gs_positive - self.value.threshold_voltage ≤ 0 →
      MOSFETComponentState.impart_voltage_to_nets rlog rsqrt self nets step = some nets) ∧
    (∀ i0, self.i.get? 0 = some i0 →
      0 ≤ dopingFlipCurrent self.value.ty i0 →
      0 < self.v_gs_positive - self.value.threshold_voltage →
      ¬((self.v_gs_positive - self.value.threshold_voltage) *
          (self.v_gs_positive - self.value.threshold_voltage) * (99999 / 100000) >
            2 * dopingFlipCurrent self.value.ty i0 / self.value.beta) →
      MOSFETComponentState.impart_voltage_to_nets rlog rsqrt self nets step = some nets) := by
  refine ⟨?_, ?_, ?_⟩
  · intro ns hns
    unfold MOSFETComponentState.impart_voltage_to_nets at hns
    cases hi : self.i.get? 0 with
    | none => rw [hi] at hns; cases hns
    | some i0 =>
      rw [hi] at hns
      dsimp only at hns
      set vopt : Option F :=
        (if dopingFlipCurrent self.value.ty i0 < 0 then
          some (-(rlog ((-(dopingFlipCurrent self.value.ty i0)) /
              self.value.body_diode_saturation_current + 1)) *
            (self.value.body_diode_ideality_facotor * self.temperature /
              ELEMENTARY_CHARGE_OVER_BOLTZMANN_CONSTANT))
        else
          if self.v_gs_positive - self.value.threshold_voltage > 0 then
            if (self.v_gs_positive - self.value.threshold_voltage) *
                (self.v_gs_positive - self.value.threshold_voltage) * (99999 / 100000) >
                2 * dopingFlipCurrent self.value.ty i0 / self.value.beta then
              some (self.v_gs_positive - self.value.threshold_voltage -
                rsqrt ((self.v_gs_positive - self.value.threshold_voltage) *
                    (self.v_gs_positive - self.value.threshold_voltage) -
                  2 * dopingFlipCurrent self.value.ty i0 / self.value.beta))
            else none
          else none) with hvopt
      cases hv : vopt with
      | none =>
        rw [hv] at hns
        cases hns
        exact ⟨fun j _ _ => rfl, fun j => ⟨rfl, rfl, rfl, rfl, rfl⟩⟩
      | some v_ds_pos =>
        rw [hv] at hns
        dsimp only at hns
        cases hns
        constructor
        · intro j hj0 hj2
          rw [voteOn, voteOn, listGetD_listModify_ne _ _ _ _ _ hj2,
            listGetD_listModify_ne _ _ _ _ _ hj0]
        · intro j
          exact ⟨((voteOn_preserves _ _ _ j).1).trans ((voteOn_preserves _ _ _ j).1),
            ((voteOn_preserves _ _ _ j).2.1).trans ((voteOn_preserves _ _ _ j).2.1),
            ((voteOn_preserves _ _ _ j).2.2.1).trans ((voteOn_preserves _ _ _ j).2.2.1),
            ((voteOn_preserves _ _ _ j).2.2.2.1).trans ((voteOn_preserves _ _ _ j).2.2.2.1),
            ((voteOn_preserves _ _ _ j).2.2.2.2).trans ((voteOn_preserves _ _ _ j).2.2.2.2)⟩
  · intro i0 hi hge hle
    unfold MOSFETComponentState.impart_voltage_to_nets
    rw [hi]
    dsimp only
    rw [if_neg (not_lt.mpr hge), if_neg (not_lt.mpr hle)]
  · intro i0 hi hge hgt hnsat
    unfold MOSFETComponentState.impart_voltage_to_nets
    rw [hi]
    dsimp only
    rw [if_neg (not_lt.mpr hge), if_pos hgt, if_neg hnsat]

/-- Evaluation of the C9 witness vote (the abstracted square root is applied
only at `1`, where IEEE `sqrt` is exact). -/
theorem c9w_eval :
    MOSFETComponentState.impart_voltage_to_nets (fun x => x) (fun x => x)
      c9w_self c9w_nets (1 / 2) = some c9w_out := by
  norm_num [c9w_self, c9w_nets, c9w_out, MOSFETComponentState.impart_voltage_to_nets,
    List.get?, dopingFlipCurrent, dopingFlipVoltage, voteOn, voteFn, listModify,
    listGetD, NetState.new_empty]

/-- Witness for the amended claim C9: the gate net (index 1) is untouched by
the triode-region vote, the source net's voltage field is untouched, and the
cutoff and saturation devices return the nets exactly as given. -/
theorem claim_C9_amended_witness :
    (listGetD c9w_out 1 default = listGetD c9w_nets 1 default) ∧
    ((listGetD c9w_out 0 default).voltage = (listGetD c9w_nets 0 default).voltage) ∧
    (MOSFETComponentState.impart_voltage_to_nets (fun x => x) (fun x => x)
      c9cut_self c9w_nets (1 / 2) = some c9w_nets) ∧
    (MOSFETComponentState.impart_voltage_to_nets (fun x => x) (fun x => x)
      c9sat_self c9w_nets (1 / 2) = some c9w_nets) :=
  ⟨((claim_C9_amended (fun x => x) (fun x => x) c9w_self c9w_nets (1 / 2)).1
      c9w_out c9w_eval).1 1 (by decide) (by decide),
    (((claim_C9_amended (fun x => x) (fun x => x) c9w_self c9w_nets (1 / 2)).1
      c9w_out c9w_eval).2 0).1,
    (claim_C9_amended (fun x => x) (fun x => x) c9cut_self c9w_nets (1 / 2)).2.1 0 rfl
      (by norm_num [c9cut_self, dopingFlipCurrent])
      (by norm_num [c9cut_self]),
    (claim_C9_amended (fun x => x) (fun x => x) c9sat_self c9w_nets (1 / 2)).2.2 2 rfl
      (by norm_num [c9sat_self, dopingFlipCurrent])
      (by norm_num [c9sat_self])
      (by norm_num [c9sat_self, dopingFlipCurrent])⟩
